import Mathlib

/-!
Verification development for the smartmic-cloudimaging repository
(DicomOrganizer.py, HealthImaging.py, main.py).

Python strings are embedded as `List Char`; S3 object bodies as `List Nat`
(byte values).  Each definition mirrors the corresponding Python function;
comments name the source location.
-/

namespace CloudImaging

/-- Embedded Python string. -/
abbrev Str := List Char

/-! ## DicomOrganizer._sanitize (DicomOrganizer.py lines 135-144) -/

/-- One character of a single-character `str.replace`: `c` becomes an
underscore exactly when it equals the pattern character `ch`. -/
def rep_char (ch : Char) (c : Char) : Char := if c = ch then '_' else c

/-- Python `text.replace(ch, underscore)` for a one-character pattern:
it rewrites every occurrence, i.e. maps `rep_char ch` over the text. -/
def replace_char (ch : Char) (t : Str) : Str := t.map (rep_char ch)

/-- The `invalid_chars` string of `_sanitize`. -/
def invalid_chars : Str := "<>:\"|?*\\".toList

/-- `_sanitize`: the `for char in invalid_chars` loop, folding the
single-character replacements over the text. -/
def sanitize (text : Str) : Str :=
  invalid_chars.foldl (fun t ch => replace_char ch t) text

/-- The effect of running all replacements of a pattern list on one character. -/
def chain_rep (l : Str) (c : Char) : Char := l.foldl (fun x ch => rep_char ch x) c

lemma foldl_replace_eq_map (l : Str) (t : Str) :
    l.foldl (fun t ch => replace_char ch t) t = t.map (chain_rep l) := by
  induction l generalizing t with
  | nil =>
    rw [List.foldl_nil, show chain_rep [] = fun c => c from rfl, List.map_id']
  | cons ch l ih =>
    simp only [List.foldl_cons, replace_char] at *
    rw [ih, List.map_map]
    rfl

lemma chain_rep_eq (l : Str) (c : Char) :
    chain_rep l c = if c ∈ l then '_' else c := by
  induction l generalizing c with
  | nil => simp [chain_rep]
  | cons ch l ih =>
    have hstep : chain_rep (ch :: l) c = chain_rep l (rep_char ch c) := rfl
    by_cases h : c = ch
    · subst h
      have h1 : rep_char c c = '_' := by simp [rep_char]
      rw [hstep, h1, ih]
      simp
    · have h1 : rep_char ch c = c := by simp [rep_char, h]
      rw [hstep, h1, ih]
      simp [List.mem_cons, h]

/-- Simultaneous description of the sanitization of one character. -/
def sanitize_char (c : Char) : Char := if c ∈ invalid_chars then '_' else c

theorem sanitize_eq_map (t : Str) : sanitize t = t.map sanitize_char := by
  rw [sanitize, foldl_replace_eq_map]
  exact List.map_congr_left fun c _ => chain_rep_eq invalid_chars c

/-! ## DICOM metadata records

`pydicom.Dataset` is embedded as an ordered list of (tag, value) pairs;
`Dataset.get tag default` is a lookup with a default. -/

abbrev Dataset := List (Str × Str)

/-- Value of the first element with the given tag, if any. -/
def ds_find (tag : Str) : Dataset → Option Str
  | [] => none
  | e :: rest => if e.1 = tag then some e.2 else ds_find tag rest

/-- `ds.get(tag, dflt)` from pydicom: the value of the tag, or the default. -/
def ds_get (ds : Dataset) (tag dflt : Str) : Str := (ds_find tag ds).getD dflt

/-! ## organize_by_patient_study_series (DicomOrganizer.py lines 50-58) -/

/-- The destination key computed for one metadata record
(DicomOrganizer.py line 58, with the four sanitized fields of lines 53-56). -/
def organize_key (tp : Str) (ds : Dataset) : Str :=
  tp ++ "/".toList
     ++ sanitize (ds_get ds ("PatientID".toList) ("Unknown_Patient".toList)) ++ "/".toList
     ++ sanitize (ds_get ds ("StudyInstanceUID".toList) ("Unknown_Study".toList)) ++ "/".toList
     ++ sanitize (ds_get ds ("SeriesInstanceUID".toList) ("Unknown_Series".toList)) ++ "/".toList
     ++ sanitize (ds_get ds ("SOPInstanceUID".toList) ("Unknown_Instance".toList))
     ++ ".dcm".toList

/-- The copy plan of `organize_by_patient_study_series`: for each listed file
(source key paired with its parsed metadata) the pair of source key and
computed destination key. -/
def organize_by_patient_study_series (tp : Str) (files : List (Str × Dataset)) :
    List (Str × Str) :=
  files.map (fun f => (f.1, organize_key tp f.2))

/-- From the wording of the spec: a path segment is the metadata field with
every occurrence of the eight invalid characters replaced by an underscore,
or the fixed placeholder when the field is absent. -/
def spec_segment (field : Option Str) (placeholder : Str) : Str :=
  match field with
  | some v => v.map (fun c => if c ∈ invalid_chars then '_' else c)
  | none => placeholder

/-- From the wording of the spec: the destination key layout
tp, patient, study, series, instance joined by slashes with extension dcm. -/
def spec_destination_key (tp : Str) (ds : Dataset) : Str :=
  tp ++ "/".toList
     ++ spec_segment (ds_find ("PatientID".toList) ds) ("Unknown_Patient".toList) ++ "/".toList
     ++ spec_segment (ds_find ("StudyInstanceUID".toList) ds) ("Unknown_Study".toList) ++ "/".toList
     ++ spec_segment (ds_find ("SeriesInstanceUID".toList) ds) ("Unknown_Series".toList) ++ "/".toList
     ++ spec_segment (ds_find ("SOPInstanceUID".toList) ds) ("Unknown_Instance".toList)
     ++ ".dcm".toList

lemma sanitize_get_eq_spec_segment (ds : Dataset) (tag dflt : Str)
    (hd : sanitize dflt = dflt) :
    sanitize (ds_get ds tag dflt) = spec_segment (ds_find tag ds) dflt := by
  rw [ds_get]
  cases ds_find tag ds with
  | none => simpa using hd
  | some v =>
    simp only [Option.getD_some, spec_segment]
    rw [sanitize_eq_map]
    rfl

/-- C1: for every DICOM metadata record, the destination key computed by
organize_by_patient_study_series equals
tp/patient/study/series/instance.dcm, where each of the four segments is the
corresponding metadata field (PatientID, StudyInstanceUID, SeriesInstanceUID,
SOPInstanceUID) with every occurrence of the eight invalid characters replaced
by an underscore, and a missing field is replaced by its fixed placeholder. -/
theorem C1_destination_key (tp : Str) (files : List (Str × Dataset)) :
    organize_by_patient_study_series tp files =
      files.map (fun f => (f.1, spec_destination_key tp f.2)) := by
  unfold organize_by_patient_study_series
  refine List.map_congr_left fun f _ => ?_
  have hkey : ∀ ds : Dataset, organize_key tp ds = spec_destination_key tp ds := by
    intro ds
    unfold organize_key spec_destination_key
    rw [sanitize_get_eq_spec_segment ds _ _ (by decide),
        sanitize_get_eq_spec_segment ds _ _ (by decide),
        sanitize_get_eq_spec_segment ds _ _ (by decide),
        sanitize_get_eq_spec_segment ds _ _ (by decide)]
  rw [hkey]

/-! ## _list_dicom_files and _is_dicom_file (DicomOrganizer.py lines 74-116) -/

/-- A listed S3 object: its key and its body as a byte sequence. -/
structure S3Object where
  key : Str
  content : List Nat
deriving DecidableEq

/-- The bytes of the marker b'DICM'. -/
def dicm_marker : List Nat := [68, 73, 67, 77]

/-- `_is_dicom_file`: a ranged read of bytes 128-131 compared with b'DICM'.
A short object makes the ranged read fail or return fewer bytes, and the
catch-all returns False; `(content.drop 128).take 4` is then shorter than the
marker, so the comparison is `false` in exactly those cases. -/
def is_dicom_file (o : S3Object) : Bool :=
  decide ((o.content.drop 128).take 4 = dicm_marker)

/-- The extension tuple of line 93. -/
def dicom_extensions : List Str :=
  [".dcm".toList, ".dicom".toList, ".DCM".toList, ".DICOM".toList]

/-- `key.endswith((dcm, dicom, DCM, DICOM))`. -/
def has_dicom_extension (k : Str) : Bool :=
  dicom_extensions.any (fun e => decide (e <:+ k))

/-- `_list_dicom_files`: the paginated listing loop, appending every key whose
extension matches or whose magic number check succeeds. Pages without a
Contents entry contribute an empty object list. -/
def list_dicom_files (pages : List (List S3Object)) : List Str :=
  pages.foldl
    (fun acc page =>
      page.foldl
        (fun acc2 o =>
          if has_dicom_extension o.key || is_dicom_file o then acc2 ++ [o.key]
          else acc2)
        acc)
    []

lemma page_foldl_eq (page : List S3Object) (acc : List Str) :
    page.foldl
        (fun acc2 o =>
          if has_dicom_extension o.key || is_dicom_file o then acc2 ++ [o.key]
          else acc2)
        acc
      = acc ++ (page.filter
          (fun o => has_dicom_extension o.key || is_dicom_file o)).map S3Object.key := by
  induction page generalizing acc with
  | nil => simp
  | cons o page ih =>
    rw [List.foldl_cons]
    by_cases h : (has_dicom_extension o.key || is_dicom_file o) = true
    · rw [if_pos h, ih, List.filter_cons, if_pos h, List.map_cons, List.append_assoc]
      rfl
    · rw [if_neg h, ih, List.filter_cons, if_neg h]

lemma list_dicom_files_eq (pages : List (List S3Object)) :
    list_dicom_files pages =
      (pages.flatten.filter
        (fun o => has_dicom_extension o.key || is_dicom_file o)).map S3Object.key := by
  unfold list_dicom_files
  suffices h : ∀ acc : List Str,
      pages.foldl
          (fun acc page =>
            page.foldl
              (fun acc2 o =>
                if has_dicom_extension o.key || is_dicom_file o then acc2 ++ [o.key]
                else acc2)
              acc)
          acc
        = acc ++ (pages.flatten.filter
            (fun o => has_dicom_extension o.key || is_dicom_file o)).map S3Object.key by
    simpa using h []
  induction pages with
  | nil => simp
  | cons page pages ih =>
    intro acc
    simp only [List.foldl_cons]
    rw [page_foldl_eq, ih, List.flatten_cons, List.filter_append, List.map_append,
      List.append_assoc]

/-- C2: a listed key is classified as a DICOM file exactly when its extension
is one of .dcm, .dicom, .DCM, .DICOM or the bytes of the object at offsets
128-131 equal the marker DICM, and _list_dicom_files returns exactly the
listed keys satisfying this disjunction. -/
theorem C2_dicom_classification (pages : List (List S3Object)) (k : Str) :
    k ∈ list_dicom_files pages ↔
      ∃ o : S3Object, o ∈ pages.flatten ∧ o.key = k ∧
        (((".dcm".toList <:+ k) ∨ (".dicom".toList <:+ k) ∨
          (".DCM".toList <:+ k) ∨ (".DICOM".toList <:+ k)) ∨
         (o.content.drop 128).take 4 = dicm_marker) := by
  rw [list_dicom_files_eq]
  simp only [List.mem_map, List.mem_filter]
  constructor
  · rintro ⟨o, ⟨ho, hcl⟩, rfl⟩
    refine ⟨o, ho, rfl, ?_⟩
    rcases Bool.or_eq_true_iff.mp hcl with h | h
    · left
      have := List.any_eq_true.mp h
      simp only [dicom_extensions, List.mem_cons, List.not_mem_nil, or_false,
        decide_eq_true_eq] at this
      rcases this with ⟨e, he, hs⟩
      rcases he with rfl | rfl | rfl | rfl
      · exact Or.inl hs
      · exact Or.inr (Or.inl hs)
      · exact Or.inr (Or.inr (Or.inl hs))
      · exact Or.inr (Or.inr (Or.inr hs))
    · right
      exact of_decide_eq_true h
  · rintro ⟨o, ho, rfl, hcond⟩
    refine ⟨o, ⟨ho, ?_⟩, rfl⟩
    rcases hcond with hext | hmagic
    · apply Bool.or_eq_true_iff.mpr
      left
      apply List.any_eq_true.mpr
      simp only [dicom_extensions, List.mem_cons, List.not_mem_nil, or_false,
        decide_eq_true_eq]
      rcases hext with h | h | h | h
      · exact ⟨_, Or.inl rfl, h⟩
      · exact ⟨_, Or.inr (Or.inl rfl), h⟩
      · exact ⟨_, Or.inr (Or.inr (Or.inl rfl)), h⟩
      · exact ⟨_, Or.inr (Or.inr (Or.inr rfl)), h⟩
    · apply Bool.or_eq_true_iff.mpr
      right
      exact decide_eq_true hmagic

/-! ## AWSHealthImaging client operations (HealthImaging.py)

Each method wraps one external call in a try/except.  The outcome of the
external call (all the work inside the try block) is embedded as an
`Except Str` value: `.ok` carries the response, `.error` a raised exception.
The method body maps `.ok` to the extracted result and `.error` to the
sentinel that the except branch returns. -/

/-- Response of create_datastore. -/
structure CreateDatastoreResponse where
  datastoreId : Str
deriving DecidableEq

/-- Response of start_dicom_import_job. -/
structure StartImportResponse where
  jobId : Str
deriving DecidableEq

/-- The jobProperties dictionary of get_dicom_import_job. -/
structure JobProperties where
  jobStatus : Str
  message : Option Str
deriving DecidableEq

/-- One entry of imageSetsMetadataSummaries. -/
structure ImageSetSummary where
  imageSetId : Str
  version : Option Str
deriving DecidableEq

/-- The parsed imageSetMetadataBlob of get_image_set_metadata. -/
structure ImageSetMetadata where
  blob : Str
deriving DecidableEq

/-- create_datastore (HealthImaging.py lines 11-20). -/
def create_datastore (call : Except Str CreateDatastoreResponse) : Option Str :=
  match call with
  | .ok r => some r.datastoreId
  | .error _ => none

/-- import_dicom_from_s3 (lines 22-43). -/
def import_dicom_from_s3 (call : Except Str StartImportResponse) : Option Str :=
  match call with
  | .ok r => some r.jobId
  | .error _ => none

/-- get_import_job_status (lines 45-62). -/
def get_import_job_status (call : Except Str JobProperties) : Option JobProperties :=
  match call with
  | .ok props => some props
  | .error _ => none

/-- search_studies (lines 88-154). -/
def search_studies (call : Except Str (List ImageSetSummary)) : List ImageSetSummary :=
  match call with
  | .ok l => l
  | .error _ => []

/-- get_image_set_metadata (lines 156-200). -/
def get_image_set_metadata (call : Except Str ImageSetMetadata) :
    Option ImageSetMetadata :=
  match call with
  | .ok m => some m
  | .error _ => none

/-- get_image_frame (lines 202-236); the result is the frame byte string. -/
def get_image_frame (call : Except Str (List Nat)) : Option (List Nat) :=
  match call with
  | .ok d => some d
  | .error _ => none

/-- delete_image_set (lines 238-257). -/
def delete_image_set (call : Except Str Str) : Bool :=
  match call with
  | .ok _ => true
  | .error _ => false

/-- delete_datastore (lines 259-280). -/
def delete_datastore (call : Except Str Str) : Bool :=
  match call with
  | .ok _ => true
  | .error _ => false

/-! ## wait_for_import_completion (HealthImaging.py lines 64-86)

The loop is embedded with an explicit iteration counter `k`: the status call
is instantaneous and each iteration ends with `time.sleep(check_interval)`,
so the elapsed wall-clock time at the k-th loop test is `k * check_interval`.
The k-th external call outcome is `poll k`.  Structural recursion uses a fuel
argument; the fuel chosen in `wait_for_import_completion` is large enough
that, for a positive check interval, it never cuts the loop short (the fuel
runs out only when the loop test is already false). -/

def status_COMPLETED : Str := "COMPLETED".toList
def status_FAILED : Str := "FAILED".toList
def status_COMPLETED_WITH_ERRORS : Str := "COMPLETED_WITH_ERRORS".toList

/-- The loop of wait_for_import_completion. -/
def wait_go (poll : Nat → Except Str JobProperties) (c m : Nat) :
    Nat → Nat → Bool
  | 0, _ => false
  | fuel + 1, k =>
    if k * c < m then
      match get_import_job_status (poll k) with
      | none => false
      | some props =>
        if props.jobStatus = status_COMPLETED then true
        else if props.jobStatus = status_FAILED ∨
                props.jobStatus = status_COMPLETED_WITH_ERRORS then false
        else wait_go poll c m fuel (k + 1)
    else false

/-- wait_for_import_completion with check interval `c` and max wait `m`. -/
def wait_for_import_completion (poll : Nat → Except Str JobProperties)
    (c m : Nat) : Bool :=
  wait_go poll c m (m / c + 1) 0

/-- Number of status checks the loop performs. -/
def wait_polls (poll : Nat → Except Str JobProperties) (c m : Nat) :
    Nat → Nat → Nat
  | 0, _ => 0
  | fuel + 1, k =>
    if k * c < m then
      match get_import_job_status (poll k) with
      | none => 1
      | some props =>
        if props.jobStatus = status_COMPLETED then 1
        else if props.jobStatus = status_FAILED ∨
                props.jobStatus = status_COMPLETED_WITH_ERRORS then 1
        else 1 + wait_polls poll c m fuel (k + 1)
    else 0

/-- Number of status checks of wait_for_import_completion. -/
def wait_poll_count (poll : Nat → Except Str JobProperties) (c m : Nat) : Nat :=
  wait_polls poll c m (m / c + 1) 0

/-- A status on which the loop stops. -/
def terminal_status (s : Str) : Prop :=
  s = status_COMPLETED ∨ s = status_FAILED ∨ s = status_COMPLETED_WITH_ERRORS

/-- The k-th status check succeeds and observes a non-terminal status. -/
def nonterminal_poll (poll : Nat → Except Str JobProperties) (k : Nat) : Prop :=
  ∃ props, get_import_job_status (poll k) = some props ∧
    ¬ terminal_status props.jobStatus

lemma wait_go_true (poll : Nat → Except Str JobProperties) (c m : Nat) :
    ∀ fuel k, wait_go poll c m fuel k = true →
      ∃ j, k ≤ j ∧ j * c < m ∧
        (∃ props, get_import_job_status (poll j) = some props ∧
          props.jobStatus = status_COMPLETED) ∧
        ∀ i, k ≤ i → i < j → nonterminal_poll poll i := by
  intro fuel
  induction fuel with
  | zero => intro k h; simp [wait_go] at h
  | succ fuel ih =>
    intro k h
    rw [wait_go] at h
    by_cases hg : k * c < m
    · rw [if_pos hg] at h
      cases hjs : get_import_job_status (poll k) with
      | none => simp only [hjs] at h; exact absurd h (by simp)
      | some props =>
        simp only [hjs] at h
        by_cases hcomp : props.jobStatus = status_COMPLETED
        · refine ⟨k, le_refl k, hg, ⟨props, hjs, hcomp⟩, ?_⟩
          intro i h1 h2
          omega
        · rw [if_neg hcomp] at h
          by_cases hfail : props.jobStatus = status_FAILED ∨
              props.jobStatus = status_COMPLETED_WITH_ERRORS
          · rw [if_pos hfail] at h; exact absurd h (by simp)
          · rw [if_neg hfail] at h
            obtain ⟨j, hkj, hjm, hcompj, hprior⟩ := ih (k + 1) h
            refine ⟨j, by omega, hjm, hcompj, ?_⟩
            intro i h1 h2
            by_cases hik : i = k
            · subst hik
              refine ⟨props, hjs, ?_⟩
              intro hterm
              rcases hterm with h1 | h2 | h3
              · exact hcomp h1
              · exact hfail (Or.inl h2)
              · exact hfail (Or.inr h3)
            · exact hprior i (by omega) h2
    · rw [if_neg hg] at h
      exact absurd h (by simp)

lemma wait_go_nonterminal_false (poll : Nat → Except Str JobProperties)
    (c m : Nat) :
    ∀ fuel k, (∀ j, k ≤ j → j * c < m → nonterminal_poll poll j) →
      wait_go poll c m fuel k = false := by
  intro fuel
  induction fuel with
  | zero => intro k _; rfl
  | succ fuel ih =>
    intro k hnt
    rw [wait_go]
    by_cases hg : k * c < m
    · rw [if_pos hg]
      obtain ⟨props, hjs, hterm⟩ := hnt k (le_refl k) hg
      simp only [hjs]
      rw [if_neg (fun h => hterm (Or.inl h)),
          if_neg (fun h => hterm (Or.inr h))]
      exact ih (k + 1) (fun j hj hjm => hnt j (by omega) hjm)
    · rw [if_neg hg]

lemma mul_lt_iff_lt_ceil (c m k : Nat) (hc : 0 < c) :
    k * c < m ↔ k < (m + c - 1) / c := by
  have h1 : (k < (m + c - 1) / c) ↔ (k + 1) * c ≤ m + c - 1 := by
    rw [Nat.lt_iff_add_one_le, Nat.le_div_iff_mul_le hc]
  have h2 : (k + 1) * c = k * c + c := by ring
  rw [h1, h2]
  omega

lemma ceil_le_floor_succ (m c : Nat) (hc : 0 < c) :
    (m + c - 1) / c ≤ m / c + 1 := by
  have h1 : m + c - 1 ≤ m + c := by omega
  have h2 : (m + c - 1) / c ≤ (m + c) / c := Nat.div_le_div_right h1
  rw [Nat.add_div_right m hc] at h2
  exact h2

lemma wait_polls_le (poll : Nat → Except Str JobProperties) (c m : Nat)
    (hc : 0 < c) :
    ∀ fuel k, wait_polls poll c m fuel k ≤ (m + c - 1) / c - k := by
  intro fuel
  induction fuel with
  | zero => intro k; simp [wait_polls]
  | succ fuel ih =>
    intro k
    rw [wait_polls]
    by_cases hg : k * c < m
    · rw [if_pos hg]
      have hk : k < (m + c - 1) / c := (mul_lt_iff_lt_ceil c m k hc).mp hg
      cases hjs : get_import_job_status (poll k) with
      | none =>
        show 1 ≤ (m + c - 1) / c - k
        omega
      | some props =>
        show (if props.jobStatus = status_COMPLETED then 1
              else if props.jobStatus = status_FAILED ∨
                      props.jobStatus = status_COMPLETED_WITH_ERRORS then 1
              else 1 + wait_polls poll c m fuel (k + 1)) ≤ (m + c - 1) / c - k
        have hrec := ih (k + 1)
        split_ifs <;> omega
    · rw [if_neg hg]
      omega

lemma wait_polls_first_abnormal (poll : Nat → Except Str JobProperties)
    (c m : Nat) :
    ∀ fuel k j, k ≤ j → j * c < m →
      (get_import_job_status (poll j) = none ∨
        ∃ props, get_import_job_status (poll j) = some props ∧
          terminal_status props.jobStatus) →
      (∀ i, k ≤ i → i < j → nonterminal_poll poll i) →
      j + 1 - k ≤ fuel →
      wait_polls poll c m fuel k = j + 1 - k := by
  intro fuel
  induction fuel with
  | zero => intro k j hkj _ _ _ hfuel; omega
  | succ fuel ih =>
    intro k j hkj hjm habn hprior hfuel
    rw [wait_polls]
    have hg : k * c < m := by
      have := Nat.mul_le_mul hkj (le_refl c)
      omega
    rw [if_pos hg]
    by_cases hkje : k = j
    · subst hkje
      rcases habn with hnone | ⟨props, hsome, hterm⟩
      · simp only [hnone]
        omega
      · rw [hsome]
        rcases hterm with h1 | h2 | h3
        · show (if props.jobStatus = status_COMPLETED then 1
                else if props.jobStatus = status_FAILED ∨
                        props.jobStatus = status_COMPLETED_WITH_ERRORS then 1
                else 1 + wait_polls poll c m fuel (k + 1)) = k + 1 - k
          rw [if_pos h1]
          omega
        · show (if props.jobStatus = status_COMPLETED then 1
                else if props.jobStatus = status_FAILED ∨
                        props.jobStatus = status_COMPLETED_WITH_ERRORS then 1
                else 1 + wait_polls poll c m fuel (k + 1)) = k + 1 - k
          split_ifs <;> first | omega | exact absurd (Or.inl h2) (by assumption)
        · show (if props.jobStatus = status_COMPLETED then 1
                else if props.jobStatus = status_FAILED ∨
                        props.jobStatus = status_COMPLETED_WITH_ERRORS then 1
                else 1 + wait_polls poll c m fuel (k + 1)) = k + 1 - k
          split_ifs <;> first | omega | exact absurd (Or.inr h3) (by assumption)
    · obtain ⟨props, hsome, hnt⟩ := hprior k (le_refl k) (by omega)
      rw [hsome]
      show (if props.jobStatus = status_COMPLETED then 1
            else if props.jobStatus = status_FAILED ∨
                    props.jobStatus = status_COMPLETED_WITH_ERRORS then 1
            else 1 + wait_polls poll c m fuel (k + 1)) = j + 1 - k
      rw [if_neg (fun h => hnt (Or.inl h)),
          if_neg (fun h => hnt (Or.inr h))]
      have hrec := ih (k + 1) j (by omega) hjm habn
        (fun i hi1 hi2 => hprior i (by omega) hi2) (by omega)
      omega

/-- C3: wait_for_import_completion returns true only when the observed status
sequence ends in the single success status COMPLETED (all earlier checks
observed a non-terminal status); it returns false when a first FAILED or
COMPLETED_WITH_ERRORS status is observed, and also when every check inside
the maximum wait observes a non-terminal status. -/
theorem C3_wait_result (poll : Nat → Except Str JobProperties) (c m : Nat)
    (_hc : 0 < c) :
    (wait_for_import_completion poll c m = true →
      ∃ j, j * c < m ∧
        (∃ props, get_import_job_status (poll j) = some props ∧
          props.jobStatus = status_COMPLETED) ∧
        ∀ i, i < j → nonterminal_poll poll i)
    ∧ (∀ j, j * c < m →
        (∃ props, get_import_job_status (poll j) = some props ∧
          (props.jobStatus = status_FAILED ∨
           props.jobStatus = status_COMPLETED_WITH_ERRORS)) →
        (∀ i, i < j → nonterminal_poll poll i) →
        wait_for_import_completion poll c m = false)
    ∧ ((∀ j, j * c < m → nonterminal_poll poll j) →
        wait_for_import_completion poll c m = false) := by
  have hpart1 : wait_for_import_completion poll c m = true →
      ∃ j, j * c < m ∧
        (∃ props, get_import_job_status (poll j) = some props ∧
          props.jobStatus = status_COMPLETED) ∧
        ∀ i, i < j → nonterminal_poll poll i := by
    intro h
    obtain ⟨j, _, hjm, hcomp, hpri⟩ := wait_go_true poll c m (m / c + 1) 0 h
    exact ⟨j, hjm, hcomp, fun i hi => hpri i (Nat.zero_le i) hi⟩
  refine ⟨hpart1, ?_, ?_⟩
  · rintro j hjm ⟨props, hsome, hfail⟩ hpri
    cases hres : wait_for_import_completion poll c m with
    | false => rfl
    | true =>
      obtain ⟨j2, hj2m, ⟨props2, hsome2, hcomp2⟩, hpri2⟩ := hpart1 hres
      rcases Nat.lt_trichotomy j2 j with hlt | heq | hgt
      · obtain ⟨p3, hs3, hnt3⟩ := hpri j2 hlt
        rw [hsome2] at hs3
        injection hs3 with hpe
        subst hpe
        exact absurd (Or.inl hcomp2) hnt3
      · subst heq
        rw [hsome] at hsome2
        injection hsome2 with hpe
        subst hpe
        rcases hfail with h | h
        · rw [hcomp2] at h
          exact absurd h (by decide)
        · rw [hcomp2] at h
          exact absurd h (by decide)
      · obtain ⟨p3, hs3, hnt3⟩ := hpri2 j hgt
        rw [hsome] at hs3
        injection hs3 with hpe
        subst hpe
        rcases hfail with h | h
        · exact absurd (Or.inr (Or.inl h)) hnt3
        · exact absurd (Or.inr (Or.inr h)) hnt3
  · intro hnt
    exact wait_go_nonterminal_false poll c m (m / c + 1) 0
      (fun j _ hjm => hnt j hjm)

/-- A polling sequence that always observes an in-progress status. -/
def poll_in_progress : Nat → Except Str JobProperties :=
  fun _ => .ok ⟨"IN_PROGRESS".toList, none⟩

/-- Witness for C3 at the concrete polling sequence poll_in_progress with the
default interval 30 and maximum wait 3600. -/
theorem C3_wait_result_witness :
    (wait_for_import_completion poll_in_progress 30 3600 = true →
      ∃ j, j * 30 < 3600 ∧
        (∃ props, get_import_job_status (poll_in_progress j) = some props ∧
          props.jobStatus = status_COMPLETED) ∧
        ∀ i, i < j → nonterminal_poll poll_in_progress i)
    ∧ (∀ j, j * 30 < 3600 →
        (∃ props, get_import_job_status (poll_in_progress j) = some props ∧
          (props.jobStatus = status_FAILED ∨
           props.jobStatus = status_COMPLETED_WITH_ERRORS)) →
        (∀ i, i < j → nonterminal_poll poll_in_progress i) →
        wait_for_import_completion poll_in_progress 30 3600 = false)
    ∧ ((∀ j, j * 30 < 3600 → nonterminal_poll poll_in_progress j) →
        wait_for_import_completion poll_in_progress 30 3600 = false) :=
  C3_wait_result poll_in_progress 30 3600 (by decide)

/-- C8: the polling loop terminates; with check interval c > 0 and maximum
wait m it performs at most ceil(m/c) + 1 status checks (the time between
consecutive checks is the fixed sleep of c), and it stops at the first
abnormal check: when the first failed or terminal-status check is at index j
inside the window, exactly j + 1 checks are performed. -/
theorem C8_poll_count_bound (poll : Nat → Except Str JobProperties)
    (c m : Nat) (hc : 0 < c) :
    wait_poll_count poll c m ≤ (m + c - 1) / c + 1
    ∧ ∀ j, j * c < m →
        (get_import_job_status (poll j) = none ∨
          ∃ props, get_import_job_status (poll j) = some props ∧
            terminal_status props.jobStatus) →
        (∀ i, i < j → nonterminal_poll poll i) →
        wait_poll_count poll c m = j + 1 := by
  constructor
  · have h1 := wait_polls_le poll c m hc (m / c + 1) 0
    unfold wait_poll_count
    exact le_trans h1 (by simp)
  · intro j hjm habn hpri
    have hj : j < (m + c - 1) / c := (mul_lt_iff_lt_ceil c m j hc).mp hjm
    have h2 := ceil_le_floor_succ m c hc
    have h3 := wait_polls_first_abnormal poll c m (m / c + 1) 0 j (Nat.zero_le j)
      hjm habn (fun i _ hi => hpri i hi) (by omega)
    unfold wait_poll_count
    omega

/-- Witness for C8 at the concrete polling sequence poll_in_progress. -/
theorem C8_poll_count_bound_witness :
    wait_poll_count poll_in_progress 30 3600 ≤ (3600 + 30 - 1) / 30 + 1
    ∧ ∀ j, j * 30 < 3600 →
        (get_import_job_status (poll_in_progress j) = none ∨
          ∃ props, get_import_job_status (poll_in_progress j) = some props ∧
            terminal_status props.jobStatus) →
        (∀ i, i < j → nonterminal_poll poll_in_progress i) →
        wait_poll_count poll_in_progress 30 3600 = j + 1 :=
  C8_poll_count_bound poll_in_progress 30 3600 (by decide)

/-- C9: when a status query of the polling loop fails (get_import_job_status
returns none because the wrapped call raised), wait_for_import_completion
immediately returns false, without retrying and without waiting for the
maximum duration: with the failing check at index j inside the window and all
earlier checks non-terminal, the result is false after exactly j + 1 checks. -/
theorem C9_failed_query_aborts (poll : Nat → Except Str JobProperties)
    (c m j : Nat) (hc : 0 < c) (hjm : j * c < m)
    (hnone : get_import_job_status (poll j) = none)
    (hpri : ∀ i, i < j → nonterminal_poll poll i) :
    wait_for_import_completion poll c m = false
    ∧ wait_poll_count poll c m = j + 1 := by
  constructor
  · cases hres : wait_for_import_completion poll c m with
    | false => rfl
    | true =>
      obtain ⟨j2, _, hj2m, ⟨props2, hsome2, hcomp2⟩, hpri2⟩ :=
        wait_go_true poll c m (m / c + 1) 0 hres
      rcases Nat.lt_trichotomy j2 j with hlt | heq | hgt
      · obtain ⟨p3, hs3, hnt3⟩ := hpri j2 hlt
        rw [hsome2] at hs3
        injection hs3 with hpe
        subst hpe
        exact absurd (Or.inl hcomp2) hnt3
      · subst heq
        rw [hnone] at hsome2
        cases hsome2
      · obtain ⟨p3, hs3, hnt3⟩ := hpri2 j (Nat.zero_le j) hgt
        rw [hnone] at hs3
        cases hs3
  · have hj : j < (m + c - 1) / c := (mul_lt_iff_lt_ceil c m j hc).mp hjm
    have h2 := ceil_le_floor_succ m c hc
    have h3 := wait_polls_first_abnormal poll c m (m / c + 1) 0 j (Nat.zero_le j)
      hjm (Or.inl hnone) (fun i _ hi => hpri i hi) (by omega)
    unfold wait_poll_count
    omega

/-- A polling sequence whose external call always raises. -/
def poll_raises : Nat → Except Str JobProperties :=
  fun _ => .error ("connection error".toList)

/-- Witness for C9: the very first status query fails, so the loop answers
false after one check. -/
theorem C9_failed_query_aborts_witness :
    wait_for_import_completion poll_raises 30 3600 = false
    ∧ wait_poll_count poll_raises 30 3600 = 0 + 1 :=
  C9_failed_query_aborts poll_raises 30 3600 0 (by decide) (by decide) rfl
    (fun i hi => absurd hi (by omega))

/-! ## get_organized_structure (DicomOrganizer.py lines 146-190)

Python dictionaries preserve insertion order; they are embedded as
association lists with in-place update.  `key.split` on the slash character
yields n + 1 parts for n separators, exactly as in Python. -/

/-- Python single-character `str.split`. -/
def split_on_char (sep : Char) : Str → List Str
  | [] => [[]]
  | c :: cs =>
    match split_on_char sep cs with
    | [] => [[]]
    | p :: ps => if c = sep then [] :: p :: ps else (c :: p) :: ps

/-- The studies dictionary of one patient: study name to series-name list. -/
abbrev StudyMap := List (Str × List Str)

/-- The structure dictionary: patient name to studies dictionary. -/
abbrev OrgStructure := List (Str × StudyMap)

/-- Dictionary lookup. -/
def alookup {β : Type} (k : Str) : List (Str × β) → Option β
  | [] => none
  | e :: rest => if e.1 = k then some e.2 else alookup k rest

/-- Dictionary assignment: replace in place when the key exists, append
otherwise. -/
def aset {β : Type} (k : Str) (v : β) : List (Str × β) → List (Str × β)
  | [] => [(k, v)]
  | e :: rest => if e.1 = k then (k, v) :: rest else e :: aset k v rest

/-- Lines 183-188: create the patient and study entries when missing, then
append the series when it is not yet in the series list. -/
def add_series (st : OrgStructure) (patient study series : Str) : OrgStructure :=
  let studies := (alookup patient st).getD []
  let series_list := (alookup study studies).getD []
  let series_list2 := if series ∈ series_list then series_list
                      else series_list ++ [series]
  aset patient (aset study series_list2 studies) st

/-- One loop iteration of get_organized_structure (lines 173-188): split the
key on slashes and, when there are at least four parts, file the key under
its fourth-, third- and second-from-last components. -/
def structure_step (st : OrgStructure) (key : Str) : OrgStructure :=
  let parts := split_on_char '/' key
  if 4 ≤ parts.length then
    add_series st (parts.getD (parts.length - 4) [])
      (parts.getD (parts.length - 3) []) (parts.getD (parts.length - 2) [])
  else st

/-- get_organized_structure over the flat list of keys that the paginated
target-bucket listing yields. -/
def get_organized_structure (keys : List Str) : OrgStructure :=
  keys.foldl structure_step []

/-- The patient, study and series components of a key: its fourth-, third-
and second-from-last slash-separated components, defined when the key has at
least four components. -/
def key_triple (key : Str) : Option (Str × Str × Str) :=
  let parts := split_on_char '/' key
  if 4 ≤ parts.length then
    some (parts.getD (parts.length - 4) [], parts.getD (parts.length - 3) [],
      parts.getD (parts.length - 2) [])
  else none

/-- The series name appears in the series list of the study under the
patient. -/
def series_in (st : OrgStructure) (p s se : Str) : Prop :=
  ∃ studies, alookup p st = some studies ∧
    ∃ l, alookup s studies = some l ∧ se ∈ l

/-- Every series list of the structure is duplicate-free. -/
def no_dup_series (st : OrgStructure) : Prop :=
  ∀ p studies, alookup p st = some studies →
    ∀ s l, alookup s studies = some l → l.Nodup

lemma alookup_aset_self {β : Type} (k : Str) (v : β) (l : List (Str × β)) :
    alookup k (aset k v l) = some v := by
  induction l with
  | nil => simp [aset, alookup]
  | cons e rest ih =>
    by_cases h : e.1 = k
    · simp [aset, h, alookup]
    · simp [aset, h, alookup, ih]

lemma alookup_aset_ne {β : Type} (k k2 : Str) (v : β) (l : List (Str × β))
    (h : k2 ≠ k) : alookup k2 (aset k v l) = alookup k2 l := by
  induction l with
  | nil => simp [aset, alookup, Ne.symm h]
  | cons e rest ih =>
    by_cases he : e.1 = k
    · rw [aset, if_pos he, alookup, alookup, he]
      simp [Ne.symm h]
    · rw [aset, if_neg he, alookup, alookup, ih]

lemma mem_series_list_iff (st : OrgStructure) (p s se : Str) :
    se ∈ (alookup s ((alookup p st).getD [])).getD [] ↔ series_in st p s se := by
  cases hp : alookup p st with
  | none => simp [series_in, hp, alookup]
  | some studies =>
    cases hs : alookup s studies with
    | none => simp [series_in, hp, hs]
    | some l => simp [series_in, hp, hs]

lemma series_in_add (st : OrgStructure) (p s se p2 s2 se2 : Str) :
    series_in (add_series st p s se) p2 s2 se2 ↔
      series_in st p2 s2 se2 ∨ (p2 = p ∧ s2 = s ∧ se2 = se) := by
  unfold add_series
  by_cases hpp : p2 = p
  · subst hpp
    constructor
    · rintro ⟨studies2, hp2, l2, hs2, hse2⟩
      rw [alookup_aset_self] at hp2
      injection hp2 with he
      subst he
      by_cases hss : s2 = s
      · subst hss
        rw [alookup_aset_self] at hs2
        injection hs2 with he2
        subst he2
        by_cases hmem : se ∈ (alookup s2 ((alookup p2 st).getD [])).getD []
        · rw [if_pos hmem] at hse2
          exact Or.inl ((mem_series_list_iff st p2 s2 se2).mp hse2)
        · rw [if_neg hmem] at hse2
          rcases List.mem_append.mp hse2 with h | h
          · exact Or.inl ((mem_series_list_iff st p2 s2 se2).mp h)
          · exact Or.inr ⟨rfl, rfl, List.mem_singleton.mp h⟩
      · rw [alookup_aset_ne _ _ _ _ hss] at hs2
        cases hp : alookup p2 st with
        | none => rw [hp] at hs2; simp [alookup] at hs2
        | some studies0 =>
          rw [hp] at hs2
          exact Or.inl ⟨studies0, hp, l2, hs2, hse2⟩
    · intro h
      rcases h with ⟨studies0, hp0, l0, hs0, hse0⟩ | ⟨_, hss, hsee⟩
      · refine ⟨_, alookup_aset_self _ _ _, ?_⟩
        by_cases hss : s2 = s
        · subst hss
          refine ⟨_, alookup_aset_self _ _ _, ?_⟩
          have hmm : se2 ∈ (alookup s2 ((alookup p2 st).getD [])).getD [] :=
            (mem_series_list_iff st p2 s2 se2).mpr ⟨studies0, hp0, l0, hs0, hse0⟩
          by_cases hmem : se ∈ (alookup s2 ((alookup p2 st).getD [])).getD []
          · rw [if_pos hmem]
            exact hmm
          · rw [if_neg hmem]
            exact List.mem_append.mpr (Or.inl hmm)
        · rw [alookup_aset_ne _ _ _ _ hss, hp0]
          exact ⟨l0, hs0, hse0⟩
      · subst hss
        subst hsee
        refine ⟨_, alookup_aset_self _ _ _, _, alookup_aset_self _ _ _, ?_⟩
        by_cases hmem : se2 ∈ (alookup s2 ((alookup p2 st).getD [])).getD []
        · rw [if_pos hmem]
          exact hmem
        · rw [if_neg hmem]
          exact List.mem_append.mpr (Or.inr (List.mem_singleton.mpr rfl))
  · constructor
    · rintro ⟨studies2, hp2, hrest⟩
      rw [alookup_aset_ne _ _ _ _ hpp] at hp2
      exact Or.inl ⟨studies2, hp2, hrest⟩
    · intro h
      rcases h with ⟨studies2, hp2, hrest⟩ | ⟨hpe, _, _⟩
      · exact ⟨studies2, by rw [alookup_aset_ne _ _ _ _ hpp]; exact hp2, hrest⟩
      · exact absurd hpe hpp

lemma nodup_series_list (st : OrgStructure) (p s : Str)
    (h : no_dup_series st) :
    ((alookup s ((alookup p st).getD [])).getD []).Nodup := by
  cases hp : alookup p st with
  | none => simp [alookup]
  | some studies =>
    simp only [Option.getD_some]
    cases hs : alookup s studies with
    | none => simp
    | some l =>
      simp only [Option.getD_some]
      exact h p studies hp s l hs

lemma no_dup_series_add (st : OrgStructure) (p s se : Str)
    (h : no_dup_series st) : no_dup_series (add_series st p s se) := by
  intro p2 studies2 hp2 s2 l2 hs2
  unfold add_series at hp2
  by_cases hpp : p2 = p
  · subst hpp
    rw [alookup_aset_self] at hp2
    injection hp2 with he
    subst he
    by_cases hss : s2 = s
    · subst hss
      rw [alookup_aset_self] at hs2
      injection hs2 with he2
      subst he2
      have hnd := nodup_series_list st p2 s2 h
      by_cases hmem : se ∈ (alookup s2 ((alookup p2 st).getD [])).getD []
      · rw [if_pos hmem]
        exact hnd
      · rw [if_neg hmem]
        refine List.nodup_append.mpr ⟨hnd, List.nodup_singleton se, ?_⟩
        intro a ha hb
        rw [List.mem_singleton.mp hb] at ha
        exact hmem ha
    · rw [alookup_aset_ne _ _ _ _ hss] at hs2
      cases hp : alookup p2 st with
      | none => rw [hp] at hs2; simp [alookup] at hs2
      | some studies0 =>
        rw [hp] at hs2
        exact h p2 studies0 hp s2 l2 hs2
  · rw [alookup_aset_ne _ _ _ _ hpp] at hp2
    exact h p2 studies2 hp2 s2 l2 hs2

lemma series_in_step (st : OrgStructure) (key : Str) (p s se : Str) :
    series_in (structure_step st key) p s se ↔
      series_in st p s se ∨ key_triple key = some (p, s, se) := by
  unfold structure_step key_triple
  by_cases h4 : 4 ≤ (split_on_char '/' key).length
  · rw [if_pos h4, if_pos h4, series_in_add]
    constructor
    · rintro (h | ⟨h1, h2, h3⟩)
      · exact Or.inl h
      · exact Or.inr (by rw [h1, h2, h3])
    · rintro (h | h)
      · exact Or.inl h
      · injection h with he
        rw [Prod.ext_iff, Prod.ext_iff] at he
        exact Or.inr ⟨he.1.symm, he.2.1.symm, he.2.2.symm⟩
  · rw [if_neg h4, if_neg h4]
    simp

lemma series_in_foldl (keys : List Str) :
    ∀ st p s se, series_in (keys.foldl structure_step st) p s se ↔
      series_in st p s se ∨
        ∃ key, key ∈ keys ∧ key_triple key = some (p, s, se) := by
  induction keys with
  | nil =>
    intro st p s se
    simp
  | cons key keys ih =>
    intro st p s se
    rw [List.foldl_cons, ih, series_in_step]
    constructor
    · rintro ((h | h) | ⟨k2, hk2, ht2⟩)
      · exact Or.inl h
      · exact Or.inr ⟨key, List.mem_cons_self key keys, h⟩
      · exact Or.inr ⟨k2, List.mem_cons_of_mem key hk2, ht2⟩
    · rintro (h | ⟨k2, hk2, ht2⟩)
      · exact Or.inl (Or.inl h)
      · rcases List.mem_cons.mp hk2 with rfl | hmem
        · exact Or.inl (Or.inr ht2)
        · exact Or.inr ⟨k2, hmem, ht2⟩

lemma no_dup_series_foldl (keys : List Str) :
    ∀ st, no_dup_series st → no_dup_series (keys.foldl structure_step st) := by
  induction keys with
  | nil => intro st h; exact h
  | cons key keys ih =>
    intro st h
    rw [List.foldl_cons]
    apply ih
    unfold structure_step
    by_cases h4 : 4 ≤ (split_on_char '/' key).length
    · rw [if_pos h4]
      exact no_dup_series_add _ _ _ _ h
    · rw [if_neg h4]
      exact h

/-- C5: for every flat list of destination keys, get_organized_structure
yields a patient-study-series grouping whose series lists contain no
duplicates, and a series name appears under a patient and study exactly when
some listed key with at least four slash-separated components has that
patient, study and series as its fourth-, third- and second-from-last
components. -/
theorem C5_structure_grouping (keys : List Str) :
    no_dup_series (get_organized_structure keys)
    ∧ ∀ p s se, series_in (get_organized_structure keys) p s se ↔
        ∃ key, key ∈ keys ∧ key_triple key = some (p, s, se) := by
  constructor
  · apply no_dup_series_foldl
    intro p studies hp
    simp [alookup] at hp
  · intro p s se
    rw [get_organized_structure, series_in_foldl]
    simp [series_in, alookup]

/-- Witness for C5: a concrete organized key is reported under its patient,
study and series components. -/
theorem C5_structure_grouping_witness :
    series_in (get_organized_structure ["organized/P1/S1/SE1/i.dcm".toList])
      ("P1".toList) ("S1".toList) ("SE1".toList) :=
  ((C5_structure_grouping ["organized/P1/S1/SE1/i.dcm".toList]).2
      ("P1".toList) ("S1".toList) ("SE1".toList)).mpr
    ⟨"organized/P1/S1/SE1/i.dcm".toList, by decide, by decide⟩

/-! ## C4: guarded client calls versus unguarded listing operations

The eight imaging-client methods wrap the work of their try block in
try/except and map a raised call to a sentinel.  The listing operations of
the organizer contain no try/except at all: _list_dicom_files is called by
organize_by_patient_study_series (DicomOrganizer.py line 47) outside the
per-file try, and get_organized_structure is called unguarded by main
(main.py line 51), so a failure of their paginated list_objects_v2 calls
propagates to the caller.  The outcome of the paginated listing is the
input; with no guard, an error outcome is re-raised unchanged. -/

/-- _list_dicom_files including the fallibility of its unguarded paginated
listing (DicomOrganizer.py lines 74-96): on success the filtered keys, on a
listing failure the propagated exception. -/
def list_dicom_files_run (call : Except Str (List (List S3Object))) :
    Except Str (List Str) :=
  match call with
  | .ok pages => .ok (list_dicom_files pages)
  | .error e => .error e

/-- get_organized_structure including the fallibility of its unguarded
paginated listing (DicomOrganizer.py lines 166-190): on success the grouped
structure of the listed keys, on a listing failure the propagated
exception. -/
def get_organized_structure_run (call : Except Str (List Str)) :
    Except Str OrgStructure :=
  match call with
  | .ok keys => .ok (get_organized_structure keys)
  | .error e => .error e

/-- C4, counterexample: not every operation of the system is guarded. A
failure of the paginated listing propagates out of _list_dicom_files and
get_organized_structure as the raised exception; neither operation returns
a sentinel failure value of any kind. -/
theorem C4_unguarded_listing_counterexample :
    list_dicom_files_run (.error ("connection reset".toList)) =
      .error ("connection reset".toList)
    ∧ (¬ ∃ keys : List Str, list_dicom_files_run
        (.error ("connection reset".toList)) = .ok keys)
    ∧ get_organized_structure_run (.error ("connection reset".toList)) =
      .error ("connection reset".toList)
    ∧ (¬ ∃ st : OrgStructure, get_organized_structure_run
        (.error ("connection reset".toList)) = .ok st) := by
  refine ⟨rfl, ?_, rfl, ?_⟩
  · rintro ⟨keys, hkeys⟩
    cases hkeys
  · rintro ⟨st, hst⟩
    cases hst

/-- C4, amended: each of the eight imaging-client operations is individually
guarded — when the external call it wraps fails, the failure is reported and
the operation returns its sentinel failure value (none for create_datastore,
import_dicom_from_s3, get_import_job_status, get_image_set_metadata,
get_image_frame; the empty list for search_studies; false for
delete_image_set and delete_datastore) — while the listing operations
_list_dicom_files and get_organized_structure are not guarded and propagate
a failure of their listing call to the caller. -/
theorem C4_guarded_clients_unguarded_listing (e : Str) :
    create_datastore (.error e) = none
    ∧ import_dicom_from_s3 (.error e) = none
    ∧ get_import_job_status (.error e) = none
    ∧ get_image_set_metadata (.error e) = none
    ∧ get_image_frame (.error e) = none
    ∧ search_studies (.error e) = []
    ∧ delete_image_set (.error e) = false
    ∧ delete_datastore (.error e) = false
    ∧ list_dicom_files_run (.error e) = .error e
    ∧ get_organized_structure_run (.error e) = .error e :=
  ⟨rfl, rfl, rfl, rfl, rfl, rfl, rfl, rfl, rfl, rfl⟩

/-! ## main.py workflow driver (C6)

The driver constructs AWSHealthImaging and calls methods on it by name;
Python resolves required positional parameters and attribute names
dynamically.  The embedding records the parameter and method names of the
class (HealthImaging.py) and the interactions of main (main.py) in program
order, and a step succeeds exactly when the dynamic resolution would. -/

inductive MainStep where
  | construct (args : List Str)
  | callMethod (meth : Str)
deriving DecidableEq

/-- The methods defined by class AWSHealthImaging (HealthImaging.py). -/
def health_imaging_methods : List Str :=
  ["create_datastore".toList, "import_dicom_from_s3".toList,
   "get_import_job_status".toList, "wait_for_import_completion".toList,
   "search_studies".toList, "get_image_set_metadata".toList,
   "get_image_frame".toList, "delete_image_set".toList,
   "delete_datastore".toList]

/-- The parameters of AWSHealthImaging.init without a default value
(HealthImaging.py line 6): datastore_id only, since region_name defaults. -/
def health_imaging_required_init_args : List Str := ["datastore_id".toList]

/-- A step succeeds when a construction passes every required parameter and
a method call names a method the class defines. -/
def main_step_ok : MainStep → Bool
  | .construct args => health_imaging_required_init_args.all (fun r => args.contains r)
  | .callMethod meth => health_imaging_methods.contains meth

/-- The AWSHealthImaging interactions of main in program order: construction
with only region_name (main.py line 65), list_datastores (line 69),
create_datastore (line 80), import_dicom_from_s3 (line 101),
wait_for_import_completion (line 113), search_image_sets (lines 132, 146,
156), get_image_set_metadata (line 169), get_image_frame (line 201). -/
def main_imaging_steps : List MainStep :=
  [MainStep.construct ["region_name".toList],
   MainStep.callMethod ("list_datastores".toList),
   MainStep.callMethod ("create_datastore".toList),
   MainStep.callMethod ("import_dicom_from_s3".toList),
   MainStep.callMethod ("wait_for_import_completion".toList),
   MainStep.callMethod ("search_image_sets".toList),
   MainStep.callMethod ("get_image_set_metadata".toList),
   MainStep.callMethod ("get_image_frame".toList)]

/-- C6: main fails before completing the import workflow: the construction
omits the required datastore_id argument, so already the first interaction
fails (no non-empty prefix of the steps succeeds); list_datastores and
search_image_sets are not methods the imaging client defines, while
search_studies is. -/
theorem C6_main_driver_fails :
    main_step_ok (MainStep.construct ["region_name".toList]) = false
    ∧ main_step_ok (MainStep.callMethod ("list_datastores".toList)) = false
    ∧ main_step_ok (MainStep.callMethod ("search_image_sets".toList)) = false
    ∧ health_imaging_methods.contains ("search_studies".toList) = true
    ∧ main_imaging_steps.takeWhile main_step_ok = []
    ∧ main_imaging_steps.any (fun stp => !main_step_ok stp) = true := by
  decide

/-! ## C7: the sanitizer does not touch the path separator -/

/-- A metadata record whose PatientID contains a slash. -/
def slash_dataset : Dataset :=
  [("PatientID".toList, "A/B".toList),
   ("StudyInstanceUID".toList, "St".toList),
   ("SeriesInstanceUID".toList, "Se".toList),
   ("SOPInstanceUID".toList, "Inst".toList)]

/-- C7: sanitization replaces only the eight listed characters and leaves
the slash unchanged; the destination key of a record whose PatientID
contains a slash has five path segments below the target prefix (more than
four), and get_organized_structure assigns the file to patient B, which
differs from the sanitized PatientID field A/B it was organized under. -/
theorem C7_slash_escapes_hierarchy :
    (∀ c : Char, c ∉ invalid_chars → sanitize [c] = [c])
    ∧ sanitize ("A/B".toList) = "A/B".toList
    ∧ (split_on_char '/' (organize_key ("organized".toList) slash_dataset)).length - 1 = 5
    ∧ get_organized_structure [organize_key ("organized".toList) slash_dataset] =
        [("B".toList, [("St".toList, ["Se".toList])])]
    ∧ ("B".toList : Str) ≠
        sanitize (ds_get slash_dataset ("PatientID".toList) ("Unknown_Patient".toList)) := by
  refine ⟨?_, by decide, by decide, by decide, by decide⟩
  intro c hc
  rw [sanitize_eq_map]
  simp [sanitize_char, hc]

/-- Witness for C7: the slash is not in the invalid set and survives
sanitization. -/
theorem C7_slash_escapes_hierarchy_witness :
    ('/' ∉ invalid_chars) ∧ sanitize ['/'] = ['/'] :=
  ⟨by decide, C7_slash_escapes_hierarchy.1 '/' (by decide)⟩

/-! ## _read_dicom_metadata (DicomOrganizer.py lines 118-133) -/

/-- The tag of the bulk pixel payload element. -/
def pixel_data_tag : Str := "PixelData".toList

/-- Modelled from the spec: pydicom dcmread reads the data elements of the
file in order and, when stop_before_pixels is set, stops before the
PixelData element, returning only the leading header elements.  The pydicom
library is external to this repository; the call site with
stop_before_pixels=True (DicomOrganizer.py line 132) is repository code. -/
def dcmread (elems : Dataset) (stop_before_pixels : Bool) : Dataset :=
  if stop_before_pixels then
    elems.takeWhile (fun e => decide (e.1 ≠ pixel_data_tag))
  else elems

/-- _read_dicom_metadata: download the object and parse its data elements
with stop_before_pixels=True. -/
def read_dicom_metadata (elems : Dataset) : Dataset := dcmread elems true

lemma takeWhile_header (p : Str × Str → Bool) :
    ∀ (header : Dataset) (x : Str × Str) (rest : Dataset),
      (∀ e ∈ header, p e = true) → p x = false →
      (header ++ x :: rest).takeWhile p = header := by
  intro header
  induction header with
  | nil =>
    intro x rest _ hx
    simp [List.takeWhile, hx]
  | cons e hs ih =>
    intro x rest hall hx
    have he : p e = true := hall e (List.mem_cons_self e hs)
    have htail := ih x rest (fun e2 h2 => hall e2 (List.mem_cons_of_mem e h2)) hx
    simp [List.takeWhile, he, htail]

/-- C10: metadata extraction parses only the leading structured header of
the file, explicitly stopping before the bulk pixel payload, and the four
identifier fields used to build the destination key come from that header:
the parse of a file made of a header, the pixel payload and trailing
elements returns the header alone, and the destination key computed from
the parse equals the key computed from the header. -/
theorem C10_header_only_metadata (header : Dataset) (pixel_val : Str)
    (rest : Dataset) (tp : Str)
    (hh : ∀ e ∈ header, e.1 ≠ pixel_data_tag) :
    read_dicom_metadata (header ++ (pixel_data_tag, pixel_val) :: rest) = header
    ∧ organize_key tp
        (read_dicom_metadata (header ++ (pixel_data_tag, pixel_val) :: rest)) =
      organize_key tp header := by
  have h1 : read_dicom_metadata (header ++ (pixel_data_tag, pixel_val) :: rest)
      = header := by
    unfold read_dicom_metadata dcmread
    rw [if_pos rfl]
    exact takeWhile_header _ header (pixel_data_tag, pixel_val) rest
      (fun e he => decide_eq_true (hh e he)) (by simp)
  exact ⟨h1, by rw [h1]⟩

/-- Witness for C10 on a concrete file: a one-element header, the pixel
payload and a trailing element. -/
theorem C10_header_only_metadata_witness :
    read_dicom_metadata
        ([("PatientID".toList, "P1".toList)] ++
          (pixel_data_tag, "BULK".toList) :: [("After".toList, "x".toList)]) =
      [("PatientID".toList, "P1".toList)]
    ∧ organize_key ("organized".toList)
        (read_dicom_metadata
          ([("PatientID".toList, "P1".toList)] ++
            (pixel_data_tag, "BULK".toList) :: [("After".toList, "x".toList)])) =
      organize_key ("organized".toList) [("PatientID".toList, "P1".toList)] :=
  C10_header_only_metadata [("PatientID".toList, "P1".toList)] ("BULK".toList)
    [("After".toList, "x".toList)] ("organized".toList) (by decide)

end CloudImaging
